import Mathlib

/-!
Verification of the Summon-Commander automated-combat module.

This file gives a shallow embedding of the action-queue data model
(`src/scripts/action-queue.js`) and the action executor
(`src/unnamed/part_000`, class `ActionExecutor`), and proves/refutes the
frozen claims about them.

Modelling conventions:
* JavaScript strings, booleans and integers become `String`, `Bool`, `Int`.
* A possibly-absent (`undefined`/`null`) field becomes an `Option`.
* JS truthiness for strings (`""` is falsy) is modelled by the `jsStrOr`,
  `jsStrOrNull`, `jsFalsyStr` helpers; `x ?? d` on numbers is `Option.getD`.
* `foundry.utils.randomID()` is modelled by caller-supplied fresh strings
  (a supply `ℕ → String`); freshness/distinctness become hypotheses.
* Code that throws becomes `Except String`; a caught exception's `.message`
  is the `String` payload.
* `JSON.stringify`/`JSON.parse` round-tripping of the plain export records is
  modelled as the identity on the record list (the records are plain data).
* JS `Array.prototype.sort` is stable; it is modelled by the stable
  `List.insertionSort` with the comparator's `≤` relation.
-/

deriving instance DecidableEq for Except

/-- JS `x || d` for an optional string: `null`/`undefined`/`""` are falsy. -/
def jsStrOr (v : Option String) (d : String) : String :=
  match v with
  | none => d
  | some s => if s = "" then d else s

/-- JS `x || null` for an optional string: `""` collapses to `null`. -/
def jsStrOrNull (v : Option String) : Option String :=
  match v with
  | some s => if s = "" then none else some s
  | none => none

/-- JS falsiness test for an optional string (`!value`). -/
def jsFalsyStr (v : Option String) : Bool :=
  match v with
  | none => true
  | some s => s = ""

/-- JS `data.enabled !== false`. -/
def jsNotFalse (v : Option Bool) : Bool :=
  match v with
  | some false => false
  | _ => true

/-- JS `x === true` on a possibly-absent boolean. -/
def jsEqTrue (v : Option Bool) : Bool :=
  match v with
  | some true => true
  | _ => false

/-- JS `x === false` on a possibly-absent boolean. -/
def jsEqFalse (v : Option Bool) : Bool :=
  match v with
  | some false => true
  | _ => false

/-- The `conditions` object of an action: `{type, value}`
(`ConditionType` values are the strings from `action-queue.js` lines 23-34). -/
structure ConditionSpec where
  ctype : String
  value : Option String
deriving DecidableEq, Repr

/-- Action-specific `data` payload; an opaque plain-JSON object, modelled as a
key-value list.  The executor never inspects it in the embedded fragment
(executors are abstract collaborators), so only its identity matters. -/
abbrev PayloadData := List (String × String)

/-- An `ActionQueueItem` after construction (`action-queue.js` lines 39-60):
every field defaulted and normalised by the constructor. -/
structure ActionQueueItem where
  id : String
  type : String
  order : Int
  enabled : Bool
  name : String
  description : String
  conditions : ConditionSpec
  data : PayloadData
  onSuccess : Option String
  onFailure : Option String
deriving DecidableEq, Repr

/-- A stored/serialized action record (plain object), before the
`ActionQueueItem` constructor applies defaults: any field may be absent. -/
structure ActionRecord where
  id : Option String := none
  type : Option String := none
  order : Option Int := none
  enabled : Option Bool := none
  name : Option String := none
  description : Option String := none
  conditions : Option ConditionSpec := none
  data : Option PayloadData := none
  onSuccess : Option String := none
  onFailure : Option String := none
deriving DecidableEq, Repr

/-- The `ActionQueueItem` constructor / `fromObject` (`action-queue.js`
lines 40-60, 83-85).  `fresh` stands for the `foundry.utils.randomID()`
value used when `data.id` is falsy. -/
def ActionQueueItem.ofRecord (fresh : String) (r : ActionRecord) : ActionQueueItem :=
  { id := jsStrOr r.id fresh
    type := jsStrOr r.type "movement"
    order := r.order.getD 0
    enabled := jsNotFalse r.enabled
    name := jsStrOr r.name "Untitled Action"
    description := jsStrOr r.description ""
    conditions := r.conditions.getD { ctype := "always", value := none }
    data := r.data.getD []
    onSuccess := jsStrOrNull r.onSuccess
    onFailure := jsStrOrNull r.onFailure }

/-- `ActionQueueItem.toObject` (`action-queue.js` lines 65-78). -/
def ActionQueueItem.toObject (a : ActionQueueItem) : ActionRecord :=
  { id := some a.id
    type := some a.type
    order := some a.order
    enabled := some a.enabled
    name := some a.name
    description := some a.description
    conditions := some a.conditions
    data := some a.data
    onSuccess := a.onSuccess
    onFailure := a.onFailure }

/-- The stored flag envelope `{version, enabled, actions}` kept under the
token's `actionQueue` flag. -/
structure QueueEnvelope where
  version : String
  enabled : Option Bool
  actions : List ActionRecord
deriving DecidableEq, Repr

/-- `ActionQueueManager.getQueue` (`action-queue.js` lines 125-135): map the
stored records through the constructor; missing flag gives `[]`.  Stored
records produced by `toObject` always carry a truthy id, so the constructor's
`randomID()` fallback is modelled by the inert placeholder `""`. -/
def getQueue (flag : Option QueueEnvelope) : List ActionQueueItem :=
  match flag with
  | none => []
  | some env => env.actions.map (ActionQueueItem.ofRecord "")

/-- `ActionQueueManager.setQueue` (`action-queue.js` lines 140-156): stores
`{version: '1.0.0', enabled: true, actions: actions.map(toObject)}`. -/
def setQueue (items : List ActionQueueItem) : QueueEnvelope :=
  { version := "1.0.0"
    enabled := some true
    actions := items.map ActionQueueItem.toObject }

/-- `ActionQueueManager.isQueueEnabled` (`action-queue.js` lines 226-233):
`queueData?.enabled === true`. -/
def isQueueEnabled (flag : Option QueueEnvelope) : Bool :=
  match flag with
  | none => false
  | some env => jsEqTrue env.enabled

/-- `ActionQueueManager.setQueueEnabled` (`action-queue.js` lines 238-253). -/
def setQueueEnabled (flag : Option QueueEnvelope) (enabled : Bool) : QueueEnvelope :=
  match flag with
  | none => { version := "1.0.0", enabled := some enabled, actions := [] }
  | some env => { env with enabled := some enabled }

/-- `ActionQueueManager.addAction` (`action-queue.js` lines 161-169). -/
def addAction (flag : Option QueueEnvelope) (action : ActionQueueItem) : QueueEnvelope :=
  let queue := getQueue flag
  setQueue (queue ++ [{ action with order := (queue.length : Int) }])

/-- Renumber `order` consecutively starting at `n`
(the `forEach((a, idx) => a.order = idx)` pattern). -/
def renumberFrom (n : Int) : List ActionQueueItem → List ActionQueueItem
  | [] => []
  | a :: rest => { a with order := n } :: renumberFrom (n + 1) rest

/-- `ActionQueueManager.removeAction` (`action-queue.js` lines 174-182). -/
def removeAction (flag : Option QueueEnvelope) (actionId : String) : QueueEnvelope :=
  let queue := getQueue flag
  setQueue (renumberFrom 0 (queue.filter (fun a => a.id ≠ actionId)))

/-- Replace the first item with the given id (JS `find` returns the first
match and `Object.assign` mutates it in place). -/
def updateFirst (actionId : String) (upd : ActionQueueItem → ActionQueueItem) :
    List ActionQueueItem → List ActionQueueItem
  | [] => []
  | a :: rest =>
    if a.id = actionId then upd a :: rest else a :: updateFirst actionId upd rest

/-- `ActionQueueManager.updateAction` (`action-queue.js` lines 187-195);
`Object.assign(action, updates)` is modelled by an update function `upd`.
Returns the new flag and the boolean result. -/
def updateAction (flag : Option QueueEnvelope) (actionId : String)
    (upd : ActionQueueItem → ActionQueueItem) : Option QueueEnvelope × Bool :=
  let queue := getQueue flag
  match queue.find? (fun a => a.id = actionId) with
  | none => (flag, false)
  | some _ => (some (setQueue (updateFirst actionId upd queue)), true)

/-- The loop body of `reorderActions`: `idx` is the index in `actionIds`
(missing ids still advance `idx`). -/
def buildReordered (queue : List ActionQueueItem) : Int → List String → List ActionQueueItem
  | _, [] => []
  | idx, actionId :: rest =>
    match queue.find? (fun a => a.id = actionId) with
    | some a => { a with order := idx } :: buildReordered queue (idx + 1) rest
    | none => buildReordered queue (idx + 1) rest

/-- `ActionQueueManager.reorderActions` (`action-queue.js` lines 200-214). -/
def reorderActions (flag : Option QueueEnvelope) (actionIds : List String) : QueueEnvelope :=
  setQueue (buildReordered (getQueue flag) 0 actionIds)

/-- `ActionQueueManager.clearQueue` (`action-queue.js` lines 219-221). -/
def clearQueue (_flag : Option QueueEnvelope) : QueueEnvelope :=
  setQueue []

/-- `ActionQueueManager.getSortedActions` (`action-queue.js` lines 258-261):
stable sort by `order` (JS `sort((a,b) => a.order - b.order)`). -/
def getSortedActions (flag : Option QueueEnvelope) : List ActionQueueItem :=
  List.insertionSort (fun a b => a.order ≤ b.order) (getQueue flag)

/-- `ActionQueueManager.getEnabledActions` (`action-queue.js` lines 266-268). -/
def getEnabledActions (flag : Option QueueEnvelope) : List ActionQueueItem :=
  (getSortedActions flag).filter (fun a => a.enabled)

/-- `ActionQueueManager.duplicateAction` (`action-queue.js` lines 273-287);
`fresh` is the `randomID()` for the copy. -/
def duplicateAction (flag : Option QueueEnvelope) (actionId : String) (fresh : String) :
    Option QueueEnvelope × Bool :=
  let queue := getQueue flag
  match queue.find? (fun a => a.id = actionId) with
  | none => (flag, false)
  | some action =>
    let dup := ActionQueueItem.ofRecord "" action.toObject
    let dup2 := { dup with
      id := fresh
      name := action.name ++ " (Copy)"
      order := (queue.length : Int) }
    (some (setQueue (queue ++ [dup2])), true)

/-- The parsed shape of an export/import payload
(`{version, tokenName, actions}` after `JSON.parse`); `actions := none`
models an absent/non-array `actions` field. -/
structure QueueExport where
  version : String
  tokenName : String
  actions : Option (List ActionRecord)
deriving DecidableEq, Repr

/-- `ActionQueueManager.exportQueue` (`action-queue.js` lines 292-299),
modelled at the parsed-JSON level. -/
def exportQueue (flag : Option QueueEnvelope) (tokenName : String) : QueueExport :=
  { version := "1.0.0"
    tokenName := tokenName
    actions := some ((getQueue flag).map ActionQueueItem.toObject) }

/-- Assign fresh ids `supply k, supply (k+1), …` and orders
`n, n+1, …` to a list (the `forEach` in `importQueue`). -/
def assignFresh (supply : ℕ → String) (k : ℕ) (n : Int) :
    List ActionQueueItem → List ActionQueueItem
  | [] => []
  | a :: rest => { a with id := supply k, order := n } :: assignFresh supply (k + 1) (n + 1) rest

/-- `ActionQueueManager.importQueue` (`action-queue.js` lines 304-336).
An invalid payload (absent/non-array `actions`) throws, is caught, and the
method returns `false` leaving the flag untouched. -/
def importQueue (supply : ℕ → String) (flag : Option QueueEnvelope)
    (payload : QueueExport) (append : Bool) : Option QueueEnvelope × Bool :=
  match payload.actions with
  | none => (flag, false)
  | some rs =>
    let imported := rs.map (ActionQueueItem.ofRecord "")
    if append then
      let queue := getQueue flag
      (some (setQueue (queue ++ assignFresh supply 0 (queue.length : Int) imported)), true)
    else
      (some (setQueue (assignFresh supply 0 0 imported)), true)

/-! ## The action executor (`src/unnamed/part_000`, class `ActionExecutor`) -/

/-- A normalized action outcome `{success, type?, hit?, message?, error?}`
(spec "Outcome"); absent fields are `none`. -/
structure Outcome where
  success : Bool
  otype : Option String := none
  hit : Option Bool := none
  message : Option String := none
  error : Option String := none
deriving DecidableEq, Repr

/-- The per-run ledger `currentWorkflow.results`: a JS `Map` in insertion
order, modelled as an association list with unique keys. -/
abbrev Ledger := List (String × Outcome)

/-- JS `Map.set`: overwrite in place if the key exists (keeping its
position), else append. -/
def ledgerSet (l : Ledger) (k : String) (v : Outcome) : Ledger :=
  if l.any (fun p => p.1 = k) then
    l.map (fun p => if p.1 = k then (k, v) else p)
  else
    l ++ [(k, v)]

/-- The message of the `TypeError` raised when a property of `undefined` is
read: `checkHPThreshold` and `checkResourceAvailable` both read
`this.currentWorkflow.actor`, but the workflow object stores the actor under
`context.actor` (part_000 lines 67-76), so `actor` is `undefined` and
`actor.system` throws. -/
def undefinedActorError : String :=
  "TypeError: Cannot read properties of undefined (reading 'system')"

/-- Character-list test that `pat` occurs at the start of `s`
(JS `String.prototype.startsWith`). -/
def charsLead : List Char → List Char → Bool
  | [], _ => true
  | _ :: _, [] => false
  | p :: ps, c :: cs => p = c && charsLead ps cs

/-- JS `s.startsWith(pat)`. -/
def jsStartsWith (s pat : String) : Bool :=
  charsLead pat.data s.data

/-- `ActionExecutor.checkResourceAvailable` (part_000 lines 268-289).
Falsy `value` returns `true` before any actor access; a `spell-slot-` or
`resource-` value dereferences the `undefined` actor and throws; any other
value falls through to `return true`. -/
def checkResourceAvailable (value : Option String) : Except String Bool :=
  if jsFalsyStr value then .ok true
  else
    match value with
    | none => .ok true
    | some v =>
      if jsStartsWith v "spell-slot-" then .error undefinedActorError
      else if jsStartsWith v "resource-" then .error undefinedActorError
      else .ok true

/-- `ActionExecutor.checkHPThreshold` (part_000 lines 294-320).  Falsy
`value` returns `true`; otherwise line 299 computes
`actor.system.attributes.hp.value / ... * 100` on the `undefined`
`this.currentWorkflow.actor` and throws before the comparator is reached. -/
def checkHPThreshold (value : Option String) : Except String Bool :=
  if jsFalsyStr value then .ok true
  else .error undefinedActorError

/-- Comparator operators recognised by the regex `/([<>]=?)\s*(\d+)/`. -/
inductive CmpOp
  | lt
  | le
  | gt
  | ge
deriving DecidableEq, Repr

/-- JS `\s` whitespace test (ASCII fragment). -/
def isWsChar (c : Char) : Bool :=
  c = ' ' || c = '\t' || c = '\n' || c = '\r' || c = '\x0b' || c = '\x0c'

/-- Leading decimal digits of a character list. -/
def leadDigits : List Char → List Char
  | [] => []
  | c :: cs => if c.isDigit then c :: leadDigits cs else []

/-- Numeric value of a digit list (`parseInt` on the matched digits). -/
def digitsToNat (ds : List Char) : ℕ :=
  ds.foldl (fun n c => 10 * n + (c.toNat - 48)) 0

/-- Try to match `\s*(\d+)` at the given position. -/
def matchTail (cs : List Char) : Option ℕ :=
  let ds := leadDigits (cs.dropWhile isWsChar)
  if ds = [] then none else some (digitsToNat ds)

/-- First match of the regex `/([<>]=?)\s*(\d+)/` in a character list,
with the regex engine's left-to-right scan and greedy-`=?` backtracking. -/
def cmpScan : List Char → Option (CmpOp × ℕ)
  | [] => none
  | '<' :: rest =>
    (match rest with
     | '=' :: rest2 =>
       (match matchTail rest2 with
        | some n => some (.le, n)
        | none =>
          match matchTail rest with
          | some n => some (.lt, n)
          | none => cmpScan rest)
     | _ =>
       match matchTail rest with
       | some n => some (.lt, n)
       | none => cmpScan rest)
  | '>' :: rest =>
    (match rest with
     | '=' :: rest2 =>
       (match matchTail rest2 with
        | some n => some (.ge, n)
        | none =>
          match matchTail rest with
          | some n => some (.gt, n)
          | none => cmpScan rest)
     | _ =>
       match matchTail rest with
       | some n => some (.gt, n)
       | none => cmpScan rest)
  | _ :: rest => cmpScan rest

/-- The comparator block of `checkHPThreshold` (part_000 lines 301-319),
parameterised by the `hpPercent` it would have computed.  In the shipped
code this block is unreachable: line 299 throws on the `undefined` actor
before the regex match runs. -/
def hpThresholdCompare (hpPercent : ℚ) (value : String) : Bool :=
  match cmpScan value.data with
  | none => true
  | some (op, n) =>
    match op with
    | .lt => decide (hpPercent < (n : ℚ))
    | .le => decide (hpPercent ≤ (n : ℚ))
    | .gt => decide (hpPercent > (n : ℚ))
    | .ge => decide (hpPercent ≥ (n : ℚ))

/-- `ActionExecutor.checkPreviousAttackResult` (part_000 lines 325-337):
walk the ledger in insertion order; on the first entry whose outcome is
tagged `attack`, return `hit === true` (for `attackHit`) or
`hit === false` (for `attackMiss`); an empty/attack-free ledger gives
`true`. -/
def checkPreviousAttackResult (ctype : String) : Ledger → Bool
  | [] => true
  | (_, r) :: rest =>
    if r.otype = some "attack" then
      if ctype = "attackHit" then jsEqTrue r.hit
      else if ctype = "attackMiss" then jsEqFalse r.hit
      else checkPreviousAttackResult ctype rest
    else checkPreviousAttackResult ctype rest

/-- `ActionExecutor.shouldExecute` (part_000 lines 126-149).
`checkTargetInRange` is the placeholder returning `true` (line 262). -/
def shouldExecute (a : ActionQueueItem) (ledger : Ledger) : Except String Bool :=
  match a.conditions.ctype with
  | "always" => .ok true
  | "targetInRange" => .ok true
  | "resourceAvailable" => checkResourceAvailable a.conditions.value
  | "hpThreshold" => checkHPThreshold a.conditions.value
  | "attackHit" => .ok (checkPreviousAttackResult "attackHit" ledger)
  | "attackMiss" => .ok (checkPreviousAttackResult "attackMiss" ledger)
  | _ => .ok true

/-- The external effect executors (`executeMovement`, `executeAttack`,
`executeItem`, part_000 lines 186-255) as abstract collaborators: each
either returns an outcome or throws. -/
structure ExecEnv where
  movement : ActionQueueItem → Except String Outcome
  attack : ActionQueueItem → Except String Outcome
  item : ActionQueueItem → Except String Outcome

/-- The dispatch switch inside the `try` of `ActionExecutor.executeAction`
(part_000 lines 158-176).  `spell` is routed to the attack executor
(`executeSpell` delegates to `executeAttack`, lines 216-219). -/
def dispatchRaw (env : ExecEnv) (a : ActionQueueItem) : Except String Outcome :=
  match a.type with
  | "movement" => env.movement a
  | "attack" => env.attack a
  | "spell" => env.attack a
  | "item" => env.item a
  | "endTurn" => .ok { success := true, message := some "Turn ended" }
  | _ => .ok { success := false, error := some "Unknown action type" }

/-- `ActionExecutor.executeAction` (part_000 lines 154-181): the dispatch
switch wrapped in `try/catch`; a thrown error becomes
`{success: false, error: error.message}`. -/
def executeAction (env : ExecEnv) (a : ActionQueueItem) : Outcome :=
  match dispatchRaw env a with
  | .ok o => o
  | .error e => { success := false, error := some e }

/-- One observable event of a run. -/
inductive RunEv
  | main (a : ActionQueueItem) (o : Outcome)
  | branch (a : ActionQueueItem) (o : Outcome)
  | skip (a : ActionQueueItem)
deriving DecidableEq, Repr

/-- How a run ended: normally, or aborted by an exception escaping the
per-action loop into the outer `catch` (part_000 lines 114-116). -/
inductive RunEnd
  | completed
  | aborted (msg : String)
deriving DecidableEq, Repr

/-- The observable result of one `executeQueue` run: the dispatch/skip trace
in chronological order, the final ledger, and how the run ended. -/
structure RunLog where
  trace : List RunEv
  ledger : Ledger
  ending : RunEnd
deriving DecidableEq, Repr

/-- The conditional-branching step of `executeQueue` (part_000 lines 92-103):
on success, if `action.onSuccess` is a truthy id found in the `actions`
array (`all`), execute that action immediately (bypassing its condition) and
discard its outcome; mirror with `onFailure` on failure. -/
def branchDispatch (env : ExecEnv) (all : List ActionQueueItem)
    (a : ActionQueueItem) (o : Outcome) : List RunEv :=
  if o.success then
    match jsStrOrNull a.onSuccess with
    | some sid =>
      (match all.find? (fun b => b.id = sid) with
       | some b => [.branch b (executeAction env b)]
       | none => [])
    | none => []
  else
    match jsStrOrNull a.onFailure with
    | some fid =>
      (match all.find? (fun b => b.id = fid) with
       | some b => [.branch b (executeAction env b)]
       | none => [])
    | none => []

/-- The `for (const action of actions)` loop of `executeQueue`
(part_000 lines 79-107).  `all` is the same `actions` array, used by the
branch lookup `actions.find(a => a.id === action.onSuccess)`.  Only the
main-loop result enters the ledger (`results.set(action.id, result)`,
line 90); an exception escaping `shouldExecute` aborts the run into the
outer `catch`. -/
def runLoop (env : ExecEnv) (all : List ActionQueueItem) :
    List ActionQueueItem → Ledger → RunLog
  | [], led => { trace := [], ledger := led, ending := .completed }
  | a :: rest, led =>
    match shouldExecute a led with
    | .error e => { trace := [], ledger := led, ending := .aborted e }
    | .ok false =>
      let r := runLoop env all rest led
      { trace := .skip a :: r.trace, ledger := r.ledger, ending := r.ending }
    | .ok true =>
      let o := executeAction env a
      let r := runLoop env all rest (ledgerSet led a.id o)
      { trace := .main a o :: branchDispatch env all a o ++ r.trace
        ledger := r.ledger
        ending := r.ending }

/-- The ephemeral run context (`currentWorkflow`): the subject and the
ledger, as far as the claims observe it. -/
structure Workflow where
  tokenName : String
  results : Ledger
deriving DecidableEq, Repr

/-- The executor's mutable state: the single-flight guard and the current
workflow (part_000 lines 9-12). -/
structure EngineState where
  executing : Bool
  wf : Option Workflow
deriving DecidableEq, Repr

/-- `ActionExecutor.executeQueue` (part_000 lines 60-121): if the guard is
set, log and return without touching anything; otherwise run the loop and,
in the `finally`, clear the guard and the workflow.  The run's observable
log is returned alongside the final state (`none` when the call was
dropped). -/
def executeQueue (env : ExecEnv) (st : EngineState) (tokenName : String)
    (actions : List ActionQueueItem) : EngineState × Option RunLog :=
  if st.executing then (st, none)
  else
    ({ executing := false, wf := none }, some (runLoop env actions actions []))

/-- `ActionExecutor.onCombatTurn` (part_000 lines 27-55).  `turnTruthy`
models `!!updateData.turn`; `controls` collapses the combatant/token
presence and ownership guards (lines 31-38). -/
def onCombatTurn (env : ExecEnv) (st : EngineState) (turnTruthy controls : Bool)
    (flag : Option QueueEnvelope) (tokenName : String) : EngineState × Option RunLog :=
  if !turnTruthy then (st, none)
  else if !controls then (st, none)
  else if !isQueueEnabled flag then (st, none)
  else
    let actions := getEnabledActions flag
    if actions.length = 0 then (st, none)
    else executeQueue env st tokenName actions

/-- `ActionExecutor.stopExecution` (part_000 lines 342-348). -/
def stopExecution (st : EngineState) : EngineState :=
  if st.executing then { executing := false, wf := none } else st

/-- The record returned by `ActionExecutor.getStatus`. -/
structure EngineStatus where
  executing : Bool
  currentToken : Option String
  actionsCompleted : ℕ
deriving DecidableEq, Repr

/-- `ActionExecutor.getStatus` (part_000 lines 353-359):
`currentWorkflow?.token?.name || null` and `currentWorkflow?.results.size || 0`. -/
def getStatus (st : EngineState) : EngineStatus :=
  { executing := st.executing
    currentToken :=
      match st.wf with
      | some w => if w.tokenName = "" then none else some w.tokenName
      | none => none
    actionsCompleted :=
      match st.wf with
      | some w => w.results.length
      | none => 0 }

/-- Main-loop dispatches of a trace, in order. -/
def mainsOf (t : List RunEv) : List ActionQueueItem :=
  t.filterMap (fun ev =>
    match ev with
    | .main a _ => some a
    | _ => none)

/-- Ledger entries contributed by the main-loop dispatches of a trace. -/
def mainEntries (t : List RunEv) : List (String × Outcome) :=
  t.filterMap (fun ev =>
    match ev with
    | .main a o => some (a.id, o)
    | _ => none)

/-- Keys of a ledger, in order. -/
def ledgerKeys (l : Ledger) : List String :=
  l.map (fun p => p.1)

/-! ## Shared lemmas -/

instance : IsTotal ActionQueueItem (fun a b => a.order ≤ b.order) :=
  ⟨fun a b => Int.le_total a.order b.order⟩

instance : IsTrans ActionQueueItem (fun a b => a.order ≤ b.order) :=
  ⟨fun _ _ _ h₁ h₂ => le_trans h₁ h₂⟩

theorem jsStrOr_some_empty (s : String) : jsStrOr (some s) "" = s := by
  unfold jsStrOr
  split <;> simp_all

theorem jsStrOr_ne_empty (v : Option String) (d : String) (hd : d ≠ "") :
    jsStrOr v d ≠ "" := by
  unfold jsStrOr
  split
  · exact hd
  · split <;> simp_all

theorem jsStrOrNull_ne_some_empty (v : Option String) : jsStrOrNull v ≠ some "" := by
  cases v with
  | none => simp [jsStrOrNull]
  | some s =>
    simp only [jsStrOrNull]
    split <;> simp_all

/-- Items whose string fields satisfy the constructor's truthiness
normalisation; everything the constructor produces is of this shape. -/
def IsNormal (a : ActionQueueItem) : Prop :=
  a.type ≠ "" ∧ a.name ≠ "" ∧ a.onSuccess ≠ some "" ∧ a.onFailure ≠ some ""

theorem ofRecord_isNormal (d : String) (r : ActionRecord) :
    IsNormal (ActionQueueItem.ofRecord d r) := by
  refine ⟨?_, ?_, ?_, ?_⟩
  · exact jsStrOr_ne_empty r.type "movement" (by decide)
  · exact jsStrOr_ne_empty r.name "Untitled Action" (by decide)
  · exact jsStrOrNull_ne_some_empty r.onSuccess
  · exact jsStrOrNull_ne_some_empty r.onFailure

theorem jsStrOrNull_idem (v : Option String) : jsStrOrNull (jsStrOrNull v) = jsStrOrNull v := by
  cases v with
  | none => rfl
  | some s =>
    by_cases h : s = "" <;> simp [jsStrOrNull, h]

/-- Re-reading a normalised item through `toObject`/the constructor is the
identity: the round trip only re-applies defaults that are already in
place. -/
theorem ofRecord_toObject (a : ActionQueueItem) (h : IsNormal a) :
    ActionQueueItem.ofRecord "" a.toObject = a := by
  obtain ⟨ht, hn, hs, hf⟩ := h
  unfold ActionQueueItem.ofRecord ActionQueueItem.toObject
  cases a with
  | mk id type order enabled name description conditions data onSuccess onFailure =>
    simp only at ht hn hs hf ⊢
    congr 1
    · exact jsStrOr_some_empty id
    · simp [jsStrOr, ht]
    · cases enabled <;> rfl
    · simp [jsStrOr, hn]
    · exact jsStrOr_some_empty description
    · cases onSuccess with
      | none => rfl
      | some s =>
        simp only [jsStrOrNull]
        split <;> simp_all
    · cases onFailure with
      | none => rfl
      | some s =>
        simp only [jsStrOrNull]
        split <;> simp_all

theorem getQueue_setQueue (items : List ActionQueueItem) (h : ∀ a ∈ items, IsNormal a) :
    getQueue (some (setQueue items)) = items := by
  simp only [getQueue, setQueue, List.map_map]
  calc items.map (ActionQueueItem.ofRecord "" ∘ ActionQueueItem.toObject)
      = items.map id := List.map_congr_left (fun a ha => ofRecord_toObject a (h a ha))
    _ = items := List.map_id items

theorem branchDispatch_shape (env : ExecEnv) (all : List ActionQueueItem)
    (a : ActionQueueItem) (o : Outcome) :
    branchDispatch env all a o = [] ∨
      ∃ b, branchDispatch env all a o = [RunEv.branch b (executeAction env b)] := by
  unfold branchDispatch
  split
  · cases hs : jsStrOrNull a.onSuccess with
    | none => left; rfl
    | some sid =>
      cases hf : all.find? (fun b => b.id = sid) with
      | none => left; simp [hf]
      | some b => right; exact ⟨b, by simp [hf]⟩
  · cases hs : jsStrOrNull a.onFailure with
    | none => left; rfl
    | some fid =>
      cases hf : all.find? (fun b => b.id = fid) with
      | none => left; simp [hf]
      | some b => right; exact ⟨b, by simp [hf]⟩

theorem mainsOf_branchDispatch (env : ExecEnv) (all : List ActionQueueItem)
    (a : ActionQueueItem) (o : Outcome) : mainsOf (branchDispatch env all a o) = [] := by
  rcases branchDispatch_shape env all a o with h | ⟨b, h⟩ <;> simp [h, mainsOf]

theorem mainEntries_branchDispatch (env : ExecEnv) (all : List ActionQueueItem)
    (a : ActionQueueItem) (o : Outcome) : mainEntries (branchDispatch env all a o) = [] := by
  rcases branchDispatch_shape env all a o with h | ⟨b, h⟩ <;> simp [h, mainEntries]

theorem skip_not_mem_branchDispatch (env : ExecEnv) (all : List ActionQueueItem)
    (a x : ActionQueueItem) (o : Outcome) : RunEv.skip x ∉ branchDispatch env all a o := by
  rcases branchDispatch_shape env all a o with h | ⟨b, h⟩ <;> simp [h]

theorem mainsOf_cons_main (a : ActionQueueItem) (o : Outcome) (t : List RunEv) :
    mainsOf (RunEv.main a o :: t) = a :: mainsOf t := rfl

theorem mainsOf_cons_skip (a : ActionQueueItem) (t : List RunEv) :
    mainsOf (RunEv.skip a :: t) = mainsOf t := rfl

theorem mainsOf_append (s t : List RunEv) : mainsOf (s ++ t) = mainsOf s ++ mainsOf t := by
  simp [mainsOf, List.filterMap_append]

theorem mainEntries_cons_main (a : ActionQueueItem) (o : Outcome) (t : List RunEv) :
    mainEntries (RunEv.main a o :: t) = (a.id, o) :: mainEntries t := rfl

theorem mainEntries_cons_skip (a : ActionQueueItem) (t : List RunEv) :
    mainEntries (RunEv.skip a :: t) = mainEntries t := rfl

theorem mainEntries_append (s t : List RunEv) :
    mainEntries (s ++ t) = mainEntries s ++ mainEntries t := by
  simp [mainEntries, List.filterMap_append]

theorem runLoop_mains_sublist (env : ExecEnv) (all : List ActionQueueItem) :
    ∀ (acts : List ActionQueueItem) (led : Ledger),
      (mainsOf (runLoop env all acts led).trace).Sublist acts := by
  intro acts
  induction acts with
  | nil => intro led; simp [runLoop, mainsOf]
  | cons a rest ih =>
    intro led
    simp only [runLoop]
    cases hse : shouldExecute a led with
    | error e => simp [mainsOf]
    | ok b =>
      cases b with
      | false =>
        simp only [mainsOf_cons_skip]
        exact (ih led).cons a
      | true =>
        simp only [mainsOf_cons_main, mainsOf_append, mainsOf_branchDispatch,
          List.nil_append]
        exact (ih _).cons₂ a

theorem runLoop_ledger_fold (env : ExecEnv) (all : List ActionQueueItem) :
    ∀ (acts : List ActionQueueItem) (led : Ledger),
      (runLoop env all acts led).ledger =
        (mainEntries (runLoop env all acts led).trace).foldl
          (fun l p => ledgerSet l p.1 p.2) led := by
  intro acts
  induction acts with
  | nil => intro led; simp [runLoop, mainEntries]
  | cons a rest ih =>
    intro led
    simp only [runLoop]
    cases hse : shouldExecute a led with
    | error e => simp [mainEntries]
    | ok b =>
      cases b with
      | false =>
        simp only [mainEntries_cons_skip]
        exact ih led
      | true =>
        simp only [mainEntries_cons_main, mainEntries_append, mainEntries_branchDispatch,
          List.nil_append, List.foldl_cons]
        exact ih _

theorem ledgerKeys_map_aux (l : Ledger) (k : String) (v : Outcome) :
    ledgerKeys (l.map (fun p => if p.1 = k then (k, v) else p)) = ledgerKeys l := by
  simp only [ledgerKeys, List.map_map]
  refine List.map_congr_left (fun p _ => ?_)
  by_cases h : p.1 = k <;> simp [h]

theorem ledgerKeys_ledgerSet (l : Ledger) (k : String) (v : Outcome) (m : String) :
    m ∈ ledgerKeys (ledgerSet l k v) ↔ m ∈ ledgerKeys l ∨ m = k := by
  unfold ledgerSet
  by_cases h : l.any (fun p => p.1 = k)
  · have hk : k ∈ ledgerKeys l := by
      rcases List.any_eq_true.mp h with ⟨p, hp, he⟩
      exact List.mem_map.mpr ⟨p, hp, of_decide_eq_true he⟩
    rw [if_pos h, ledgerKeys_map_aux]
    constructor
    · exact fun hm => Or.inl hm
    · rintro (hm | rfl)
      · exact hm
      · exact hk
  · rw [if_neg h]
    simp [ledgerKeys]

theorem runLoop_keys_subset (env : ExecEnv) (all : List ActionQueueItem) :
    ∀ (acts : List ActionQueueItem) (led : Ledger) (m : String),
      m ∈ ledgerKeys (runLoop env all acts led).ledger →
        m ∈ ledgerKeys led ∨ m ∈ acts.map (fun a => a.id) := by
  intro acts
  induction acts with
  | nil => intro led m hm; left; simpa [runLoop] using hm
  | cons a rest ih =>
    intro led m hm
    simp only [runLoop] at hm
    cases hse : shouldExecute a led with
    | error e =>
      rw [hse] at hm
      exact Or.inl hm
    | ok b =>
      rw [hse] at hm
      cases b with
      | false =>
        rcases ih led m hm with h | h
        · exact Or.inl h
        · exact Or.inr (by simp [h])
      | true =>
        rcases ih _ m hm with h | h
        · rcases (ledgerKeys_ledgerSet led a.id (executeAction env a) m).mp h with h2 | h2
          · exact Or.inl h2
          · exact Or.inr (by simp [h2])
        · exact Or.inr (by simp [h])

theorem runLoop_skip_mem (env : ExecEnv) (all : List ActionQueueItem) :
    ∀ (acts : List ActionQueueItem) (led : Ledger) (x : ActionQueueItem),
      RunEv.skip x ∈ (runLoop env all acts led).trace → x ∈ acts := by
  intro acts
  induction acts with
  | nil => intro led x hx; simp [runLoop] at hx
  | cons a rest ih =>
    intro led x hx
    simp only [runLoop] at hx
    cases hse : shouldExecute a led with
    | error e =>
      rw [hse] at hx
      simp at hx
    | ok b =>
      rw [hse] at hx
      cases b with
      | false =>
        rcases List.mem_cons.mp hx with h | h
        · obtain rfl : x = a := by injection h
          exact List.mem_cons_self _ _
        · exact List.mem_cons_of_mem a (ih led x h)
      | true =>
        rcases List.mem_cons.mp hx with h | h
        · cases h
        · rcases List.mem_append.mp h with h2 | h2
          · exact absurd h2 (skip_not_mem_branchDispatch env all a x _)
          · right; exact ih _ x h2

theorem runLoop_cons_error (env : ExecEnv) (all a rest led) {e : String}
    (h : shouldExecute a led = .error e) :
    runLoop env all (a :: rest) led = { trace := [], ledger := led, ending := .aborted e } := by
  simp [runLoop, h]

theorem runLoop_cons_false (env : ExecEnv) (all a rest led)
    (h : shouldExecute a led = .ok false) :
    runLoop env all (a :: rest) led =
      { trace := RunEv.skip a :: (runLoop env all rest led).trace
        ledger := (runLoop env all rest led).ledger
        ending := (runLoop env all rest led).ending } := by
  simp [runLoop, h]

theorem runLoop_cons_true (env : ExecEnv) (all a rest led)
    (h : shouldExecute a led = .ok true) :
    runLoop env all (a :: rest) led =
      { trace := RunEv.main a (executeAction env a) ::
          branchDispatch env all a (executeAction env a) ++
          (runLoop env all rest (ledgerSet led a.id (executeAction env a))).trace
        ledger := (runLoop env all rest (ledgerSet led a.id (executeAction env a))).ledger
        ending := (runLoop env all rest (ledgerSet led a.id (executeAction env a))).ending } := by
  simp [runLoop, h]

theorem runLoop_skip_fresh (env : ExecEnv) (all : List ActionQueueItem) :
    ∀ (acts : List ActionQueueItem) (led : Ledger) (x : ActionQueueItem),
      (acts.map (fun a => a.id)).Nodup →
      RunEv.skip x ∈ (runLoop env all acts led).trace →
      x.id ∉ ledgerKeys led →
      x.id ∉ ledgerKeys (runLoop env all acts led).ledger := by
  intro acts
  induction acts with
  | nil => intro led x _ hx _; simp [runLoop] at hx
  | cons a rest ih =>
    intro led x hnd hx hled
    rw [List.map_cons] at hnd
    obtain ⟨hna, hnrest⟩ := List.nodup_cons.mp hnd
    cases hse : shouldExecute a led with
    | error e =>
      rw [runLoop_cons_error env all a rest led hse] at hx
      simp at hx
    | ok b =>
      cases b with
      | false =>
        rw [runLoop_cons_false env all a rest led hse] at hx ⊢
        rcases List.mem_cons.mp hx with h | h
        · obtain rfl : x = a := by injection h
          intro hxk
          rcases runLoop_keys_subset env all rest led x.id hxk with h2 | h2
          · exact hled h2
          · exact hna h2
        · exact ih led x hnrest h hled
      | true =>
        rw [runLoop_cons_true env all a rest led hse] at hx ⊢
        rcases List.mem_cons.mp hx with h | h
        · cases h
        · rcases List.mem_append.mp h with h2 | h2
          · exact absurd h2 (skip_not_mem_branchDispatch env all a x _)
          · have hxr : x ∈ rest := runLoop_skip_mem env all rest _ x h2
            have hxa : x.id ≠ a.id := by
              intro he
              exact hna (he ▸ List.mem_map_of_mem (fun a => a.id) hxr)
            refine ih _ x hnrest h2 ?_
            intro hk
            rcases (ledgerKeys_ledgerSet led a.id (executeAction env a) x.id).mp hk with h3 | h3
            · exact hled h3
            · exact hxa h3

/-! ## Concrete sample inputs used by counterexamples and witnesses -/

/-- Stub collaborators: movement and item succeed plainly; the attack
executor reports a successful hit tagged `attack`. -/
def envStub : ExecEnv :=
  { movement := fun _ => .ok { success := true }
    attack := fun _ => .ok { success := true, otype := some "attack", hit := some true }
    item := fun _ => .ok { success := true } }

/-- Collaborators whose item executor throws. -/
def envBoom : ExecEnv :=
  { movement := fun _ => .ok { success := true }
    attack := fun _ => .ok { success := true }
    item := fun _ => .error "boom" }

def recA : ActionRecord :=
  { id := some "a", type := some "endTurn", order := some 0, enabled := some true,
    name := some "A", conditions := some { ctype := "always", value := none },
    onSuccess := some "b" }

def recB : ActionRecord :=
  { id := some "b", type := some "endTurn", order := some 1, enabled := some false,
    name := some "B", conditions := some { ctype := "always", value := none } }

def flagAB : Option QueueEnvelope :=
  some { version := "1.0.0", enabled := some true, actions := [recA, recB] }

def itemA : ActionQueueItem := ActionQueueItem.ofRecord "" recA

def itemB : ActionQueueItem := ActionQueueItem.ofRecord "" recB

/-- An action guarded by an `hpThreshold` condition with a comparator. -/
def itemHp : ActionQueueItem :=
  ActionQueueItem.ofRecord ""
    { id := some "h", type := some "endTurn", order := some 0, enabled := some true,
      name := some "H", conditions := some { ctype := "hpThreshold", value := some "< 50" } }

def recAtk : ActionRecord :=
  { id := some "a", type := some "attack", order := some 0, enabled := some true,
    name := some "Atk", conditions := some { ctype := "always", value := none },
    onSuccess := some "b" }

def recAfterMiss : ActionRecord :=
  { id := some "b", type := some "endTurn", order := some 1, enabled := some true,
    name := some "OnMiss", conditions := some { ctype := "attackMiss", value := none } }

def flagAtk : Option QueueEnvelope :=
  some { version := "1.0.0", enabled := some true, actions := [recAtk, recAfterMiss] }

def itemAtk : ActionQueueItem := ActionQueueItem.ofRecord "" recAtk

def itemAfterMiss : ActionQueueItem := ActionQueueItem.ofRecord "" recAfterMiss

/-- The attack outcome produced by `envStub.attack`. -/
def atkHitOutcome : Outcome := { success := true, otype := some "attack", hit := some true }

def busyState : EngineState :=
  { executing := true
    wf := some { tokenName := "Tok", results := [("x", { success := true })] } }

def aItemBoom : ActionQueueItem :=
  ActionQueueItem.ofRecord "" { id := some "i", type := some "item", name := some "I" }

def aBonus : ActionQueueItem :=
  ActionQueueItem.ofRecord "" { id := some "x", type := some "bonusAction", name := some "X" }

/-! ## Claims -/

/-- Claim C2: `executeQueue` is single-flight with drop semantics — while the
`executing` guard is set, a call returns with the engine state (including the
active run's workflow and ledger) unchanged, dispatches nothing (no run log),
queues nothing, and raises no error. -/
theorem executeQueue_single_flight (env : ExecEnv) (st : EngineState)
    (tokenName : String) (actions : List ActionQueueItem)
    (h : st.executing = true) :
    executeQueue env st tokenName actions = (st, none) := by
  simp [executeQueue, h]

/-- Witness for the single-flight theorem at a concrete busy state. -/
theorem executeQueue_single_flight_witness :
    executeQueue envStub busyState "Tok" [itemA] = (busyState, none) :=
  executeQueue_single_flight envStub busyState "Tok" [itemA] rfl

/-- Claim C4: per-action dispatch never raises — an exception thrown by an
executor is caught and becomes `{success: false, error: message}`; an action
whose type is not in the dispatch table yields the unknown-action-type
failure outcome; and a failure inside dispatch never aborts the run (a run
whose conditions all hold, e.g. `always`, completes regardless of dispatch
results). -/
theorem executeAction_never_raises (env : ExecEnv) (a : ActionQueueItem) :
    (∀ e, dispatchRaw env a = .error e →
      executeAction env a = { success := false, error := some e }) ∧
    (a.type ∉ (["movement", "attack", "spell", "item", "endTurn"] : List String) →
      executeAction env a = { success := false, error := some "Unknown action type" }) ∧
    (∀ (all acts : List ActionQueueItem) (led : Ledger),
      (∀ x ∈ acts, x.conditions.ctype = "always") →
      (runLoop env all acts led).ending = .completed) := by
  refine ⟨?_, ?_, ?_⟩
  · intro e he
    simp [executeAction, he]
  · intro h
    have hd : dispatchRaw env a = .ok { success := false, error := some "Unknown action type" } := by
      unfold dispatchRaw
      split <;> simp_all
    simp [executeAction, hd]
  · intro all acts
    induction acts with
    | nil => intro led _; simp [runLoop]
    | cons x rest ih =>
      intro led hall
      have hx : x.conditions.ctype = "always" := hall x (List.mem_cons_self _ _)
      have hse : shouldExecute x led = .ok true := by simp [shouldExecute, hx]
      rw [runLoop_cons_true env all x rest led hse]
      exact ih _ (fun y hy => hall y (List.mem_cons_of_mem _ hy))

/-- Witness for the dispatch-never-raises theorem: a throwing item executor,
an unrecognized `bonusAction` type, and a completed run containing the
throwing dispatch. -/
theorem executeAction_never_raises_witness :
    executeAction envBoom aItemBoom = { success := false, error := some "boom" } ∧
    executeAction envBoom aBonus = { success := false, error := some "Unknown action type" } ∧
    (runLoop envBoom [aItemBoom] [aItemBoom] []).ending = .completed :=
  ⟨(executeAction_never_raises envBoom aItemBoom).1 "boom" rfl,
   (executeAction_never_raises envBoom aBonus).2.1 (by decide),
   (executeAction_never_raises envBoom aItemBoom).2.2 [aItemBoom] [aItemBoom] [] (by decide)⟩

/-- Claim C5: the `attackHit`/`attackMiss` conditions scan the whole run
ledger in insertion order and decide on the first attack-tagged entry
(`hit === true` for Hit, `hit === false` for Miss); with no attack-tagged
entry they evaluate true (fail-open), so an attack condition guarding the
first action of a run always passes and that action is dispatched. -/
theorem attack_condition_scan :
    (∀ led : Ledger, (∀ p ∈ led, p.2.otype ≠ some "attack") →
      checkPreviousAttackResult "attackHit" led = true ∧
      checkPreviousAttackResult "attackMiss" led = true) ∧
    (∀ (pre : Ledger) (k : String) (r : Outcome) (post : Ledger),
      (∀ p ∈ pre, p.2.otype ≠ some "attack") → r.otype = some "attack" →
      checkPreviousAttackResult "attackHit" (pre ++ (k, r) :: post) = jsEqTrue r.hit ∧
      checkPreviousAttackResult "attackMiss" (pre ++ (k, r) :: post) = jsEqFalse r.hit) ∧
    (∀ a : ActionQueueItem,
      a.conditions.ctype = "attackHit" ∨ a.conditions.ctype = "attackMiss" →
      shouldExecute a [] = .ok true) ∧
    (∀ (env : ExecEnv) (all : List ActionQueueItem) (a : ActionQueueItem)
      (rest : List ActionQueueItem),
      a.conditions.ctype = "attackHit" ∨ a.conditions.ctype = "attackMiss" →
      (runLoop env all (a :: rest) []).trace.head? =
        some (RunEv.main a (executeAction env a))) := by
  have hclean : ∀ (ct : String) (led : Ledger), (∀ p ∈ led, p.2.otype ≠ some "attack") →
      checkPreviousAttackResult ct led = true := by
    intro ct led
    induction led with
    | nil => intro _; rfl
    | cons p rest ih =>
      intro h
      obtain ⟨k, r⟩ := p
      have hp : r.otype ≠ some "attack" := h (k, r) (List.mem_cons_self _ _)
      simp only [checkPreviousAttackResult, if_neg hp]
      exact ih (fun q hq => h q (List.mem_cons_of_mem _ hq))
  have hfirst : ∀ (pre : Ledger) (k : String) (r : Outcome) (post : Ledger),
      (∀ p ∈ pre, p.2.otype ≠ some "attack") → r.otype = some "attack" →
      checkPreviousAttackResult "attackHit" (pre ++ (k, r) :: post) = jsEqTrue r.hit ∧
      checkPreviousAttackResult "attackMiss" (pre ++ (k, r) :: post) = jsEqFalse r.hit := by
    intro pre
    induction pre with
    | nil =>
      intro k r post _ hr
      constructor
      · simp [List.nil_append, checkPreviousAttackResult, if_pos hr]
      · simp [List.nil_append, checkPreviousAttackResult, if_pos hr]
    | cons p rest ih =>
      intro k r post h hr
      obtain ⟨k2, r2⟩ := p
      have hp : r2.otype ≠ some "attack" := h (k2, r2) (List.mem_cons_self _ _)
      have ihr := ih k r post (fun q hq => h q (List.mem_cons_of_mem _ hq)) hr
      refine ⟨?_, ?_⟩
      · simpa only [List.cons_append, List.append_eq, checkPreviousAttackResult,
          if_neg hp] using ihr.1
      · simpa only [List.cons_append, List.append_eq, checkPreviousAttackResult,
          if_neg hp] using ihr.2
  have hcond : ∀ a : ActionQueueItem,
      a.conditions.ctype = "attackHit" ∨ a.conditions.ctype = "attackMiss" →
      shouldExecute a [] = .ok true := by
    intro a h
    rcases h with h | h <;> simp [shouldExecute, h, checkPreviousAttackResult]
  refine ⟨fun led h => ⟨hclean _ led h, hclean _ led h⟩, hfirst, hcond, ?_⟩
  intro env all a rest h
  rw [runLoop_cons_true env all a rest [] (hcond a h)]
  rfl

/-- Witness for the attack-condition theorem at concrete ledgers and a
concrete run whose first action carries an `attackMiss` condition. -/
theorem attack_condition_scan_witness :
    checkPreviousAttackResult "attackHit" [("m", { success := true })] = true ∧
    checkPreviousAttackResult "attackHit"
      ([("m", { success := true })] ++ ("a", atkHitOutcome) :: [("z", { success := false })]) =
      jsEqTrue atkHitOutcome.hit ∧
    shouldExecute itemAfterMiss [] = .ok true ∧
    (runLoop envStub [itemAfterMiss] [itemAfterMiss] []).trace.head? =
      some (RunEv.main itemAfterMiss (executeAction envStub itemAfterMiss)) :=
  ⟨(attack_condition_scan.1 [("m", { success := true })] (by decide)).1,
   (attack_condition_scan.2.1 [("m", { success := true })] "a" atkHitOutcome
      [("z", { success := false })] (by decide) (by decide)).1,
   attack_condition_scan.2.2.1 itemAfterMiss (by decide),
   attack_condition_scan.2.2.2 envStub [itemAfterMiss] itemAfterMiss [] (by decide)⟩

/-- Claim C6 (code bug): `checkHPThreshold` never reaches its comparator:
`this.currentWorkflow.actor` is `undefined` (the workflow keeps the actor
under `context.actor`), so any truthy `value` throws a `TypeError` that
escapes `shouldExecute` and aborts the whole run with an empty trace and
ledger.  The comparator block itself — modelled as the (unreachable)
`hpThresholdCompare` — implements exactly the claimed semantics, including
both boundaries at 50 and the fail-open default on a non-matching string. -/
theorem hp_threshold_throws :
    checkHPThreshold (some "< 50") = .error undefinedActorError ∧
    shouldExecute itemHp [] = .error undefinedActorError ∧
    runLoop envStub [itemHp] [itemHp] [] =
      { trace := [], ledger := [], ending := .aborted undefinedActorError } ∧
    hpThresholdCompare 50 "< 50" = false ∧
    hpThresholdCompare 49 "< 50" = true ∧
    hpThresholdCompare 50 "<= 50" = true ∧
    hpThresholdCompare 51 "<= 50" = false ∧
    hpThresholdCompare 51 "> 50" = true ∧
    hpThresholdCompare 50 "> 50" = false ∧
    hpThresholdCompare 50 ">= 50" = true ∧
    hpThresholdCompare 49 ">= 50" = false ∧
    hpThresholdCompare 75 "no-comparator" = true := by
  decide

/-- Claim C1 (counterexample): a queue holding A (enabled, order 0, endTurn,
`onSuccess = "b"`) and B (disabled, id "b"); driven by the turn trigger, A is
dispatched and succeeds, yet B is never dispatched — the branch lookup runs
over the enabled-only snapshot handed to `executeQueue`, not the full action
list, so the disabled target is simply not found. -/
theorem branch_disabled_target_dropped :
    ((onCombatTurn envStub { executing := false, wf := none } true true flagAB "T").2.map
        RunLog.trace) =
      some [RunEv.main itemA { success := true, message := some "Turn ended" }] ∧
    (executeAction envStub itemA).success = true ∧
    itemA.onSuccess = some "b" ∧
    itemB.id = "b" ∧
    itemB.enabled = false := by
  decide

/-- Claim C1 (amended): branch dispatch resolves the target by id in the
action list handed to `executeQueue` — under the turn trigger, the
enabled-only order-sorted snapshot — and a found target is dispatched
immediately after the triggering action, regardless of the target's `order`
relative to the pending actions; a target absent from that list (in
particular a disabled action) is silently not dispatched. -/
theorem branch_dispatch_snapshot (env : ExecEnv) (all rest : List ActionQueueItem)
    (a b : ActionQueueItem) (led : Ledger) (bid : String) :
    (shouldExecute a led = .ok true →
      (executeAction env a).success = true →
      jsStrOrNull a.onSuccess = some bid →
      all.find? (fun x => x.id = bid) = some b →
      (runLoop env all (a :: rest) led).trace =
        RunEv.main a (executeAction env a) :: RunEv.branch b (executeAction env b) ::
          (runLoop env all rest (ledgerSet led a.id (executeAction env a))).trace) ∧
    (shouldExecute a led = .ok true →
      (executeAction env a).success = false →
      jsStrOrNull a.onFailure = some bid →
      all.find? (fun x => x.id = bid) = some b →
      (runLoop env all (a :: rest) led).trace =
        RunEv.main a (executeAction env a) :: RunEv.branch b (executeAction env b) ::
          (runLoop env all rest (ledgerSet led a.id (executeAction env a))).trace) ∧
    (shouldExecute a led = .ok true →
      (executeAction env a).success = true →
      jsStrOrNull a.onSuccess = some bid →
      all.find? (fun x => x.id = bid) = none →
      (runLoop env all (a :: rest) led).trace =
        RunEv.main a (executeAction env a) ::
          (runLoop env all rest (ledgerSet led a.id (executeAction env a))).trace) := by
  refine ⟨?_, ?_, ?_⟩ <;> intro h1 h2 h3 h4 <;>
    rw [runLoop_cons_true env all a rest led h1] <;>
    simp [branchDispatch, h2, h3, h4]

def recBEnabled : ActionRecord :=
  { id := some "b", type := some "endTurn", order := some 5, enabled := some true,
    name := some "B", conditions := some { ctype := "always", value := none } }

def itemBE : ActionQueueItem := ActionQueueItem.ofRecord "" recBEnabled

/-- Witness: with both actions in the snapshot, the enabled target (order 5,
greater than every pending order) is dispatched immediately after A. -/
theorem branch_dispatch_snapshot_witness :
    (runLoop envStub [itemA, itemBE] (itemA :: [itemBE]) []).trace =
      RunEv.main itemA (executeAction envStub itemA) ::
        RunEv.branch itemBE (executeAction envStub itemBE) ::
          (runLoop envStub [itemA, itemBE] [itemBE]
            (ledgerSet [] itemA.id (executeAction envStub itemA))).trace :=
  (branch_dispatch_snapshot envStub [itemA, itemBE] [itemBE] itemA itemBE [] "b").1
    (by decide) (by decide) (by decide) (by decide)

/-- Claim C7 (counterexample): A (attack, `onSuccess = "b"`) succeeds and B is
dispatched as its branch target, yet the final ledger holds only A's entry:
the branch outcome is discarded, and since B's own main-loop slot is skipped
by its `attackMiss` condition, no entry keyed "b" ever appears — later
conditions and `getStatus` cannot observe the branch outcome. -/
theorem branch_outcome_missing_from_ledger :
    ((onCombatTurn envStub { executing := false, wf := none } true true flagAtk "T").2.map
        RunLog.trace) =
      some [RunEv.main itemAtk atkHitOutcome,
        RunEv.branch itemAfterMiss { success := true, message := some "Turn ended" },
        RunEv.skip itemAfterMiss] ∧
    ((onCombatTurn envStub { executing := false, wf := none } true true flagAtk "T").2.map
        RunLog.ledger) =
      some [("a", atkHitOutcome)] := by
  decide

/-- Claim C7 (amended): a branch target's outcome is never recorded — the run
ledger is exactly the fold of the main-loop dispatch entries over `Map.set`,
and branch dispatches contribute no ledger entries at all. -/
theorem branch_outcome_not_recorded (env : ExecEnv) (all acts : List ActionQueueItem)
    (led : Ledger) :
    (runLoop env all acts led).ledger =
      (mainEntries (runLoop env all acts led).trace).foldl
        (fun l p => ledgerSet l p.1 p.2) led ∧
    (∀ (a : ActionQueueItem) (o : Outcome), mainEntries (branchDispatch env all a o) = []) :=
  ⟨runLoop_ledger_fold env all acts led, fun a o => mainEntries_branchDispatch env all a o⟩

/-- Claim C3: over the turn trigger's snapshot (`getEnabledActions`: the
enabled actions in non-decreasing `order`), the run's main-loop dispatches
are in non-decreasing `order`; every ledger key is the id of an enabled
snapshot action (disabled actions never get a ledger entry); with unique
ids, an action skipped by its condition gets no ledger entry and the loop
simply continues; and from an idle engine `executeQueue` performs exactly
this run. -/
theorem run_respects_order_enabled_skip (env : ExecEnv) (flag : Option QueueEnvelope)
    (tokenName : String) :
    List.Pairwise (fun x y : ActionQueueItem => x.order ≤ y.order)
      (mainsOf (runLoop env (getEnabledActions flag) (getEnabledActions flag) []).trace) ∧
    (∀ k, k ∈ ledgerKeys
        (runLoop env (getEnabledActions flag) (getEnabledActions flag) []).ledger →
      ∃ a, a ∈ getEnabledActions flag ∧ a.id = k ∧ a.enabled = true) ∧
    (((getEnabledActions flag).map (fun a => a.id)).Nodup →
      ∀ a, RunEv.skip a ∈
          (runLoop env (getEnabledActions flag) (getEnabledActions flag) []).trace →
        a.id ∉ ledgerKeys
          (runLoop env (getEnabledActions flag) (getEnabledActions flag) []).ledger) ∧
    executeQueue env { executing := false, wf := none } tokenName (getEnabledActions flag) =
      ({ executing := false, wf := none },
        some (runLoop env (getEnabledActions flag) (getEnabledActions flag) [])) := by
  refine ⟨?_, ?_, ?_, ?_⟩
  · have hs := List.sorted_insertionSort (fun a b : ActionQueueItem => a.order ≤ b.order)
      (getQueue flag)
    have hsorted : List.Pairwise (fun x y : ActionQueueItem => x.order ≤ y.order)
        (getEnabledActions flag) := by
      simp only [getEnabledActions, getSortedActions]
      exact List.Pairwise.filter _ hs
    exact List.Pairwise.sublist (runLoop_mains_sublist env _ _ []) hsorted
  · intro k hk
    rcases runLoop_keys_subset env _ _ [] k hk with h | h
    · simp [ledgerKeys] at h
    · rcases List.mem_map.mp h with ⟨a, ha, rfl⟩
      have hen : a.enabled = true := by
        have := (List.mem_filter.mp (by simpa [getEnabledActions] using ha)).2
        simpa using this
      exact ⟨a, ha, rfl, hen⟩
  · intro hnd a hskip
    exact runLoop_skip_fresh env _ _ [] a hnd hskip (by simp [ledgerKeys])
  · simp [executeQueue]

def recW1 : ActionRecord :=
  { id := some "a1", type := some "attack", order := some 0, enabled := some true,
    name := some "W1", conditions := some { ctype := "always", value := none } }

def recW2 : ActionRecord :=
  { id := some "a2", type := some "endTurn", order := some 1, enabled := some true,
    name := some "W2", conditions := some { ctype := "attackMiss", value := none } }

def recW3 : ActionRecord :=
  { id := some "a3", type := some "endTurn", order := some 2, enabled := some false,
    name := some "W3", conditions := some { ctype := "always", value := none } }

def flagMix : Option QueueEnvelope :=
  some { version := "1.0.0", enabled := some true, actions := [recW1, recW2, recW3] }

def itemW2 : ActionQueueItem := ActionQueueItem.ofRecord "" recW2

/-- Witness for the ordering/ledger theorem on a concrete three-action queue
(one dispatched attack, one condition-skipped action, one disabled). -/
theorem run_respects_order_enabled_skip_witness :
    itemW2.id ∉ ledgerKeys
      (runLoop envStub (getEnabledActions flagMix) (getEnabledActions flagMix) []).ledger ∧
    (∃ a, a ∈ getEnabledActions flagMix ∧ a.id = "a1" ∧ a.enabled = true) ∧
    List.Pairwise (fun x y : ActionQueueItem => x.order ≤ y.order)
      (mainsOf (runLoop envStub (getEnabledActions flagMix) (getEnabledActions flagMix) []).trace) :=
  ⟨(run_respects_order_enabled_skip envStub flagMix "T").2.2.1 (by decide) itemW2 (by decide),
   (run_respects_order_enabled_skip envStub flagMix "T").2.1 "a1" (by decide),
   (run_respects_order_enabled_skip envStub flagMix "T").1⟩

/-- The per-action content the round-trip claims compare: everything except
`id` and `order`. -/
def contentFields (a : ActionQueueItem) :
    String × ConditionSpec × PayloadData × String × String × Bool ×
      Option String × Option String :=
  (a.type, a.conditions, a.data, a.name, a.description, a.enabled, a.onSuccess, a.onFailure)

theorem assignFresh_length (supply : ℕ → String) :
    ∀ (l : List ActionQueueItem) (k : ℕ) (n : Int),
      (assignFresh supply k n l).length = l.length := by
  intro l
  induction l with
  | nil => intro k n; rfl
  | cons a rest ih => intro k n; simp [assignFresh, ih]

theorem assignFresh_map_id (supply : ℕ → String) :
    ∀ (l : List ActionQueueItem) (k : ℕ) (n : Int),
      (assignFresh supply k n l).map (fun a => a.id) =
        (List.range l.length).map (fun i => supply (k + i)) := by
  intro l
  induction l with
  | nil => intro k n; rfl
  | cons a rest ih =>
    intro k n
    simp only [assignFresh, List.map_cons, ih, List.length_cons,
      List.range_succ_eq_map, List.map_map]
    congr 1
    refine List.map_congr_left (fun i _ => ?_)
    simp only [Function.comp_apply]
    congr 1
    omega

/-- The consecutive integers `n, n+1, …` of the given length (the dense
`order` values `0 .. n-1` assigned by import/renumbering). -/
def denseOrders (n : Int) : ℕ → List Int
  | 0 => []
  | m + 1 => n :: denseOrders (n + 1) m

theorem assignFresh_map_order (supply : ℕ → String) :
    ∀ (l : List ActionQueueItem) (k : ℕ) (n : Int),
      (assignFresh supply k n l).map (fun a => a.order) = denseOrders n l.length := by
  intro l
  induction l with
  | nil => intro k n; rfl
  | cons a rest ih =>
    intro k n
    simp [assignFresh, denseOrders, ih]

theorem assignFresh_map_content (supply : ℕ → String) :
    ∀ (l : List ActionQueueItem) (k : ℕ) (n : Int),
      (assignFresh supply k n l).map contentFields = l.map contentFields := by
  intro l
  induction l with
  | nil => intro k n; rfl
  | cons a rest ih =>
    intro k n
    simp only [assignFresh, List.map_cons, ih]
    rfl

theorem assignFresh_normal (supply : ℕ → String) :
    ∀ (l : List ActionQueueItem) (k : ℕ) (n : Int),
      (∀ b ∈ l, IsNormal b) → ∀ a ∈ assignFresh supply k n l, IsNormal a := by
  intro l
  induction l with
  | nil => intro k n _ a ha; simp [assignFresh] at ha
  | cons b rest ih =>
    intro k n hl a ha
    rcases List.mem_cons.mp ha with h | h
    · obtain ⟨h1, h2, h3, h4⟩ := hl b (List.mem_cons_self _ _)
      subst h
      exact ⟨h1, h2, h3, h4⟩
    · exact ih (k + 1) (n + 1) (fun x hx => hl x (List.mem_cons_of_mem _ hx)) a h

theorem getQueue_normal (flag : Option QueueEnvelope) :
    ∀ a ∈ getQueue flag, IsNormal a := by
  cases flag with
  | none => intro a ha; simp [getQueue] at ha
  | some env =>
    intro a ha
    rcases List.mem_map.mp ha with ⟨r, _, rfl⟩
    exact ofRecord_isNormal "" r

/-- Claim C8: import with `append = false` replaces the queue entirely: the
resulting actions are exactly the payload's (same content, in payload
order), every one carries a fresh id from the supply (so, when the supply
avoids the previous and payload ids, none of those ids survive), and
`order` is renumbered densely `0 .. n-1`; with `append = true` the imported
actions likewise get fresh ids and orders continuing densely after the
existing queue. -/
theorem importQueue_fresh_dense (supply : ℕ → String) (flag : Option QueueEnvelope)
    (ver tn : String) (rs : List ActionRecord) :
    (importQueue supply flag ⟨ver, tn, some rs⟩ false).2 = true ∧
    (getQueue (importQueue supply flag ⟨ver, tn, some rs⟩ false).1).map (fun a => a.id) =
      (List.range rs.length).map supply ∧
    (getQueue (importQueue supply flag ⟨ver, tn, some rs⟩ false).1).map (fun a => a.order) =
      denseOrders 0 rs.length ∧
    (getQueue (importQueue supply flag ⟨ver, tn, some rs⟩ false).1).map contentFields =
      rs.map (fun r => contentFields (ActionQueueItem.ofRecord "" r)) ∧
    ((∀ i, i < rs.length → supply i ∉ (getQueue flag).map (fun a => a.id) ∧
        ∀ r ∈ rs, r.id ≠ some (supply i)) →
      ∀ k, k ∈ (getQueue (importQueue supply flag ⟨ver, tn, some rs⟩ false).1).map
          (fun a => a.id) →
        k ∉ (getQueue flag).map (fun a => a.id) ∧ ∀ r ∈ rs, r.id ≠ some k) ∧
    (importQueue supply flag ⟨ver, tn, some rs⟩ true).2 = true ∧
    (getQueue (importQueue supply flag ⟨ver, tn, some rs⟩ true).1).map (fun a => a.id) =
      (getQueue flag).map (fun a => a.id) ++ (List.range rs.length).map supply ∧
    (getQueue (importQueue supply flag ⟨ver, tn, some rs⟩ true).1).map (fun a => a.order) =
      (getQueue flag).map (fun a => a.order) ++
        denseOrders ((getQueue flag).length : Int) rs.length := by
  have hrepl : importQueue supply flag ⟨ver, tn, some rs⟩ false =
      (some (setQueue (assignFresh supply 0 0 (rs.map (ActionQueueItem.ofRecord "")))), true) :=
    rfl
  have happ : importQueue supply flag ⟨ver, tn, some rs⟩ true =
      (some (setQueue (getQueue flag ++ assignFresh supply 0 ((getQueue flag).length : Int)
        (rs.map (ActionQueueItem.ofRecord "")))), true) := rfl
  have hpn : ∀ b ∈ rs.map (ActionQueueItem.ofRecord ""), IsNormal b := by
    intro b hb
    rcases List.mem_map.mp hb with ⟨r, _, rfl⟩
    exact ofRecord_isNormal "" r
  have hq1 : getQueue (importQueue supply flag ⟨ver, tn, some rs⟩ false).1 =
      assignFresh supply 0 0 (rs.map (ActionQueueItem.ofRecord "")) := by
    rw [hrepl]
    exact getQueue_setQueue _ (assignFresh_normal supply _ 0 0 hpn)
  have hq2 : getQueue (importQueue supply flag ⟨ver, tn, some rs⟩ true).1 =
      getQueue flag ++ assignFresh supply 0 ((getQueue flag).length : Int)
        (rs.map (ActionQueueItem.ofRecord "")) := by
    rw [happ]
    refine getQueue_setQueue _ (fun a ha => ?_)
    rcases List.mem_append.mp ha with h | h
    · exact getQueue_normal flag a h
    · exact assignFresh_normal supply _ 0 _ hpn a h
  have hid : (getQueue (importQueue supply flag ⟨ver, tn, some rs⟩ false).1).map
      (fun a => a.id) = (List.range rs.length).map supply := by
    rw [hq1, assignFresh_map_id]
    simp
  refine ⟨by rw [hrepl], hid, ?_, ?_, ?_, by rw [happ], ?_, ?_⟩
  · rw [hq1, assignFresh_map_order]
    simp
  · rw [hq1, assignFresh_map_content, List.map_map]
    rfl
  · intro h k hk
    rw [hid] at hk
    rcases List.mem_map.mp hk with ⟨i, hir, rfl⟩
    exact h i (List.mem_range.mp hir)
  · rw [hq2, List.map_append, assignFresh_map_id]
    simp
  · rw [hq2, List.map_append, assignFresh_map_order]
    simp

/-- A concrete two-value id supply. -/
def supplyW : ℕ → String := fun i => if i = 0 then "f0" else "f1"

/-- Witness for the import theorem: replacing the stored A/B queue with an
export-shaped payload yields the supply's fresh ids, none of which collide
with the previous queue or the payload ids. -/
theorem importQueue_fresh_dense_witness :
    ((getQueue (importQueue supplyW flagAB ⟨"1.0.0", "T", some [recA, recB]⟩ false).1).map
        (fun a => a.id) =
      (List.range ([recA, recB] : List ActionRecord).length).map supplyW) ∧
    ("f0" ∉ (getQueue flagAB).map (fun a => a.id) ∧
      ∀ r ∈ ([recA, recB] : List ActionRecord), r.id ≠ some "f0") :=
  ⟨(importQueue_fresh_dense supplyW flagAB "1.0.0" "T" [recA, recB]).2.1,
   (importQueue_fresh_dense supplyW flagAB "1.0.0" "T" [recA, recB]).2.2.2.2.1
      (by decide) "f0" (by decide)⟩

/-- Claim C9: exporting a queue and importing the result in replace mode
yields a queue of the same length whose actions carry, position by position,
the same type, conditions, payload data, name, description, enabled flag and
branch targets as the originals; only ids and orders are reassigned. -/
theorem export_import_round_trip (supply : ℕ → String) (flag : Option QueueEnvelope)
    (tn : String) :
    (importQueue supply flag (exportQueue flag tn) false).2 = true ∧
    (getQueue (importQueue supply flag (exportQueue flag tn) false).1).length =
      (getQueue flag).length ∧
    (getQueue (importQueue supply flag (exportQueue flag tn) false).1).map contentFields =
      (getQueue flag).map contentFields := by
  have hback : ((getQueue flag).map ActionQueueItem.toObject).map (ActionQueueItem.ofRecord "")
      = getQueue flag := by
    rw [List.map_map]
    calc (getQueue flag).map (ActionQueueItem.ofRecord "" ∘ ActionQueueItem.toObject)
        = (getQueue flag).map id :=
          List.map_congr_left (fun a ha => ofRecord_toObject a (getQueue_normal flag a ha))
      _ = getQueue flag := List.map_id _
  have hrepl : importQueue supply flag (exportQueue flag tn) false =
      (some (setQueue (assignFresh supply 0 0
        (((getQueue flag).map ActionQueueItem.toObject).map (ActionQueueItem.ofRecord "")))),
        true) := rfl
  rw [hback] at hrepl
  have hq : getQueue (importQueue supply flag (exportQueue flag tn) false).1 =
      assignFresh supply 0 0 (getQueue flag) := by
    rw [hrepl]
    exact getQueue_setQueue _ (assignFresh_normal supply _ 0 0 (getQueue_normal flag))
  refine ⟨by rw [hrepl], ?_, ?_⟩
  · rw [hq, assignFresh_length]
  · rw [hq, assignFresh_map_content]

/-- Claim C10 (implicit): every mutation routed through `setQueue`
(`addAction`, `removeAction`, `updateAction`, `reorderActions`,
`duplicateAction`, `clearQueue`, `importQueue`) stores an envelope with
`enabled` hard-set to `true`, so on a queue previously disabled via
`setQueueEnabled(token, false)` any of these mutations re-enables automatic
execution (`isQueueEnabled` returns `true` afterwards). -/
theorem setQueue_mutations_reenable (flag : Option QueueEnvelope) (a : ActionQueueItem)
    (aid : String) (upd : ActionQueueItem → ActionQueueItem) (ids : List String)
    (fresh : String) (supply : ℕ → String) (pay : QueueExport) (app : Bool) :
    isQueueEnabled (some (setQueueEnabled flag false)) = false ∧
    isQueueEnabled (some (addAction (some (setQueueEnabled flag false)) a)) = true ∧
    isQueueEnabled (some (removeAction (some (setQueueEnabled flag false)) aid)) = true ∧
    ((updateAction (some (setQueueEnabled flag false)) aid upd).2 = true →
      isQueueEnabled (updateAction (some (setQueueEnabled flag false)) aid upd).1 = true) ∧
    isQueueEnabled (some (reorderActions (some (setQueueEnabled flag false)) ids)) = true ∧
    ((duplicateAction (some (setQueueEnabled flag false)) aid fresh).2 = true →
      isQueueEnabled (duplicateAction (some (setQueueEnabled flag false)) aid fresh).1 = true) ∧
    isQueueEnabled (some (clearQueue (some (setQueueEnabled flag false)))) = true ∧
    ((importQueue supply (some (setQueueEnabled flag false)) pay app).2 = true →
      isQueueEnabled (importQueue supply (some (setQueueEnabled flag false)) pay app).1 =
        true) := by
  refine ⟨?_, rfl, rfl, ?_, rfl, ?_, rfl, ?_⟩
  · cases flag <;> rfl
  · intro h
    cases hf : (getQueue (some (setQueueEnabled flag false))).find? (fun x => x.id = aid) with
    | none => simp [updateAction, hf] at h
    | some x => simp [updateAction, hf, isQueueEnabled, setQueue, jsEqTrue]
  · intro h
    cases hf : (getQueue (some (setQueueEnabled flag false))).find? (fun x => x.id = aid) with
    | none => simp [duplicateAction, hf] at h
    | some x => simp [duplicateAction, hf, isQueueEnabled, setQueue, jsEqTrue]
  · intro h
    cases hpa : pay.actions with
    | none => simp [importQueue, hpa] at h
    | some rs => cases app <;> simp [importQueue, hpa, isQueueEnabled, setQueue, jsEqTrue]

/-- Witness for the re-enable theorem on the concrete A/B queue: disabling,
then mutating through each conditional path, re-enables the queue. -/
theorem setQueue_mutations_reenable_witness :
    isQueueEnabled (some (setQueueEnabled flagAB false)) = false ∧
    isQueueEnabled (some (addAction (some (setQueueEnabled flagAB false)) itemA)) = true ∧
    isQueueEnabled (updateAction (some (setQueueEnabled flagAB false)) "a" id).1 = true ∧
    isQueueEnabled (duplicateAction (some (setQueueEnabled flagAB false)) "a" "c").1 = true ∧
    isQueueEnabled
      (importQueue supplyW (some (setQueueEnabled flagAB false))
        { version := "1.0.0", tokenName := "T", actions := some [] } false).1 = true :=
  ⟨(setQueue_mutations_reenable flagAB itemA "a" id [] "c" supplyW
      { version := "1.0.0", tokenName := "T", actions := some [] } false).1,
   (setQueue_mutations_reenable flagAB itemA "a" id [] "c" supplyW
      { version := "1.0.0", tokenName := "T", actions := some [] } false).2.1,
   (setQueue_mutations_reenable flagAB itemA "a" id [] "c" supplyW
      { version := "1.0.0", tokenName := "T", actions := some [] } false).2.2.2.1 (by decide),
   (setQueue_mutations_reenable flagAB itemA "a" id [] "c" supplyW
      { version := "1.0.0", tokenName := "T", actions := some [] } false).2.2.2.2.2.1
      (by decide),
   (setQueue_mutations_reenable flagAB itemA "a" id [] "c" supplyW
      { version := "1.0.0", tokenName := "T", actions := some [] } false).2.2.2.2.2.2.2
      (by decide)⟩
